import Mathlib

/-!
# Black-Men-Read frontend: the schema-driven record normalizer

A shallow embedding of the `Issue` / `ComicBookIssue` constructors of this
repository (src/script.js and src/unnamed/part_000), which the specification
calls the Record Normalizer: a single pass over an ordered field schema that
validates an untyped raw input object and produces an immutable record.

The embedding follows the most refined copies of the constructor:
* variant A — src/unnamed/part_000 lines 26-137 (`schema`, `Issue`): the
  type check is guarded by `details[name] != null`;
* variant D — src/unnamed/part_000 lines 584-731: same constructor with a
  schema whose `description`/`snippet` fields carry the markup-stripping
  `cleanStr` transform.

JavaScript values that the schema's two type tags can distinguish are
modelled by `JSVal` (string and number primitives, plus `null`); a raw input
carries its own properties and its prototype-chain (inherited) properties as
separate association lists, since the constructor distinguishes
`hasOwnProperty` (presence check) from `details[name]` (property read, which
falls through to the prototype chain).
-/

namespace BMR

/-- The two constructor references the schemas use as type tags
(`String` and `Number` in the source). -/
inductive JType where
  | string
  | number
deriving DecidableEq, Repr

/-- A JavaScript value, restricted to the primitives the schema's type tags
distinguish, plus `null`.  (`undefined` behaves like `null` in every context
the constructor uses — both are falsy and both are excluded by the
`!= null` abstract-equality guard — and never occurs in parsed JSON, so it
is folded into `null` here.) -/
inductive JSVal where
  | str (s : String)
  | num (n : Int)
  | null
deriving DecidableEq, Repr

/-- `v.constructor === t` for a non-null primitive `v`: string primitives
have constructor `String`, number primitives `Number`
(part_000 lines 117-118). -/
def welltyped : JSVal → JType → Bool
  | .str _, .string => true
  | .num _, .number => true
  | _, _ => false

/-- JavaScript truthiness of a `JSVal`: the empty string, `0` and `null`
are falsy; every other string or number is truthy. -/
def truthy : JSVal → Bool
  | .str s => !(s == "")
  | .num n => !(n == 0)
  | .null => false

/-- `new model.type()`: the type's zero value (`new String()` ~ the empty
string, `new Number()` ~ 0; the object-wrapper vs primitive distinction is
not observable through the constructor, which only stores the value or feeds
it to a transform). -/
def zeroVal : JType → JSVal
  | .string => .str ""
  | .number => .num 0

/-- First-match association-list lookup: the model of reading a named
property from one object layer. -/
def assoc : List (String × JSVal) → String → Option JSVal
  | [], _ => none
  | (k, v) :: rest, n => if k = n then some v else assoc rest n

/-- A raw input object: its own enumerable properties and the properties it
only inherits through its prototype chain. A plain JSON-parsed object has
`inherited = []`. -/
structure RawInput where
  own : List (String × JSVal)
  inherited : List (String × JSVal)
deriving DecidableEq, Repr

/-- `details[name]`: a property read, which returns the own property if
present and otherwise falls through to the prototype chain; `none` models
`undefined` (no such property anywhere). -/
def rawGet (details : RawInput) (n : String) : Option JSVal :=
  match assoc details.own n with
  | some v => some v
  | none => assoc details.inherited n

/-- `details[name]` as a value: an absent property reads as a falsy
non-value (`undefined`, folded into `.null` here, which behaves identically
in the `||` coalescing where this read is used). -/
def jsRead (details : RawInput) (n : String) : JSVal :=
  match rawGet details n with
  | some v => v
  | none => .null

/-- One field descriptor of the schema: name, type tag, required flag
(absent = false in the source) and optional transform. -/
structure FieldModel where
  name : String
  type : JType
  required : Bool
  transform : Option (JSVal → JSVal)

/-- `(model.transform || identity)(v)` (part_000 line 134): apply the
descriptor's transform when it has one, else the source's `identity`. -/
def applyTransform : Option (JSVal → JSVal) → JSVal → JSVal
  | none, v => v
  | some f, v => f v

/-- The per-field stored value computed at part_000 line 134:
`(model.transform || identity)(details[model.name] || new model.type())` —
the raw read when truthy, else the type's zero value, fed to the transform. -/
def stepVal (model : FieldModel) (w : JSVal) : JSVal :=
  applyTransform model.transform (if truthy w then w else zeroVal model.type)

/-- The stored value for one field of one raw input. -/
def storedValue (details : RawInput) (model : FieldModel) : JSVal :=
  stepVal model (jsRead details model.name)

/-- The two validation errors the constructor throws
(`TypeError "property <name> must be of type <type>"` and
`Error "property <name> is required"`). -/
inductive VErr where
  | typeMismatch (field : String) (expected : JType)
  | missingRequired (field : String)
deriving DecidableEq, Repr

/-- One record property as created by `Object.defineProperty(props, name,
{value: ...})`: with no `writable` attribute given, the property is
non-writable. -/
structure PropD where
  name : String
  value : JSVal
  writable : Bool
deriving DecidableEq, Repr

/-- A normalized record: the properties defined on `props`, in schema
order. -/
abbrev Record := List PropD

/-- The body of the per-field loop iteration (part_000 lines 116-135):
if the raw input has an own property of this name, a non-null value whose
constructor differs from the type tag is a type error; if it has none and
the descriptor is required, that is a required-field error; otherwise the
field's stored value is computed. -/
def processField (details : RawInput) (model : FieldModel) : Except VErr JSVal :=
  match assoc details.own model.name with
  | some v =>
      if v ≠ JSVal.null ∧ welltyped v model.type = false then
        .error (.typeMismatch model.name model.type)
      else
        .ok (storedValue details model)
  | none =>
      if model.required then
        .error (.missingRequired model.name)
      else
        .ok (storedValue details model)

/-- The `Issue` constructor (part_000 lines 110-137), the spec's
`normalize(schema, raw)`: a single pass over the schema in declaration
order, aborting at the first validation error (a thrown exception leaves
the `new` expression with no object), and otherwise defining one
non-writable property per schema field. -/
def normalize : List FieldModel → RawInput → Except VErr Record
  | [], _ => .ok []
  | model :: rest, details =>
      match processField details model with
      | .error e => .error e
      | .ok v =>
          match normalize rest details with
          | .error e => .error e
          | .ok r => .ok (⟨model.name, v, false⟩ :: r)

/-! ## Host behavior used by the field transforms

Two schema transforms lean on the browser: `new Date(value).toISOString()`
(the `publishedDate` transform) and `e.innerHTML = s; e.textContent`
(`cleanStr`, part_000 lines 596-600).  Both are modelled here as executable
functions faithful to the host's behavior on the string shapes the
repository's data uses. -/

/-- `"T00:00:00.000Z"`, the time part `toISOString` appends when the host
parses a plain calendar date. -/
def timeSuffix : List Char :=
  ['T', '0', '0', ':', '0', '0', ':', '0', '0', '.', '0', '0', '0', 'Z']

/-- Shape test for a calendar date `YYYY-MM-DD`, the ISO date-only form the
host `Date` parser accepts. -/
def calShape : List Char → Bool
  | [a, b, c, d, e, f, g, h, i, j] =>
      a.isDigit && b.isDigit && c.isDigit && d.isDigit && e == '-' &&
      f.isDigit && g.isDigit && h == '-' && i.isDigit && j.isDigit
  | _ => false

/-- Shape test for a full `toISOString` timestamp
`YYYY-MM-DDTHH:MM:SS.mmmZ`. -/
def fullShape : List Char → Bool
  | [a, b, c, d, e, f, g, h, i, j, t, k, m, c1, n, p, c2, q, r, dot, u, v, w, z] =>
      a.isDigit && b.isDigit && c.isDigit && d.isDigit && e == '-' &&
      f.isDigit && g.isDigit && h == '-' && i.isDigit && j.isDigit &&
      t == 'T' && k.isDigit && m.isDigit && c1 == ':' && n.isDigit &&
      p.isDigit && c2 == ':' && q.isDigit && r.isDigit && dot == '.' &&
      u.isDigit && v.isDigit && w.isDigit && z == 'Z'
  | _ => false

/-- Model of the host round trip `new Date(s).toISOString()` on a string:
a full ISO timestamp is returned unchanged, a calendar date gains the
midnight-UTC time part, and any other string is unparseable (`none`
standing for the `RangeError` that `toISOString` raises on an invalid
date, which the transform's `try`/`catch` intercepts). -/
def parseISOChars (l : List Char) : Option (List Char) :=
  if fullShape l then some l
  else if calShape l then some (l ++ timeSuffix)
  else none

/-- The host date round trip on a `String`. -/
def dateToISO (s : String) : Option String :=
  match parseISOChars s.data with
  | some t => some (String.mk t)
  | none => none

/-- The body of the `publishedDate` transform (part_000 lines 47-54) on a
string: try `new Date(value).toISOString()`; on failure, log and return the
original value unchanged.  The logging side effect has no bearing on the
value. -/
def toISOorKeep (s : String) : String :=
  match dateToISO s with
  | some t => t
  | none => s

/-- The `publishedDate` transform as the schema carries it.  (A non-string
argument never reaches this transform through the schema's type discipline
and is left unchanged.) -/
def publishedDateTransform : JSVal → JSVal
  | .str s => .str (toISOorKeep s)
  | v => v

/-- Model of the browser step `e.innerHTML = s; e.textContent` that
`cleanStr` performs: parsing the string as markup and reading back only its
text content drops tags and decodes character entities.  The boolean flag
records being inside a tag; the common named entities the source comment
mentions (`&quot;` etc.) are decoded. -/
def textOfMarkup : List Char → Bool → List Char
  | [], _ => []
  | '<' :: rest, false => textOfMarkup rest true
  | '>' :: rest, true => textOfMarkup rest false
  | '&' :: 'a' :: 'm' :: 'p' :: ';' :: rest, false => '&' :: textOfMarkup rest false
  | '&' :: 'l' :: 't' :: ';' :: rest, false => '<' :: textOfMarkup rest false
  | '&' :: 'g' :: 't' :: ';' :: rest, false => '>' :: textOfMarkup rest false
  | '&' :: 'q' :: 'u' :: 'o' :: 't' :: ';' :: rest, false => '"' :: textOfMarkup rest false
  | c :: rest, false => c :: textOfMarkup rest false
  | _ :: rest, true => textOfMarkup rest true

/-- `cleanStr` (part_000 lines 596-600): "return consistent DOM-formatted
strings (removing escaped characters like &quot;)" by round-tripping the
string through `innerHTML`/`textContent`. -/
def cleanStr (s : String) : String :=
  String.mk (textOfMarkup s.data false)

/-- `cleanStr` lifted to a property value, as the schema's
`transform: cleanStr` receives it.  (A non-string argument never reaches it
through the schema's type discipline and is left unchanged.) -/
def cleanStrTransform : JSVal → JSVal
  | .str s => .str (cleanStr s)
  | v => v

/-! ## The two schema variants the claims are about -/

/-- The schema of variant A (src/unnamed/part_000 lines 26-84): `title` is
the only required field, `publishedDate` carries the date transform,
`mature`/`pageCount` are numbers, everything else is a string. -/
def schemaA : List FieldModel :=
  [⟨"title", .string, true, none⟩,
   ⟨"subtitle", .string, false, none⟩,
   ⟨"description", .string, false, none⟩,
   ⟨"snippet", .string, false, none⟩,
   ⟨"publishedDate", .string, false, some publishedDateTransform⟩,
   ⟨"publisher", .string, false, none⟩,
   ⟨"mature", .number, false, none⟩,
   ⟨"language", .string, false, none⟩,
   ⟨"isbn", .string, false, none⟩,
   ⟨"pageCount", .number, false, none⟩,
   ⟨"thumbnailURL", .string, false, none⟩,
   ⟨"coverURL", .string, false, none⟩]

/-- The schema of variant D (src/unnamed/part_000 lines 618-678): as
variant A but `description` and `snippet` carry the `cleanStr` transform
and the image-URL fields are spelled `thumbnailUrl`/`coverUrl`. -/
def schemaD : List FieldModel :=
  [⟨"title", .string, true, none⟩,
   ⟨"subtitle", .string, false, none⟩,
   ⟨"description", .string, false, some cleanStrTransform⟩,
   ⟨"snippet", .string, false, some cleanStrTransform⟩,
   ⟨"publishedDate", .string, false, some publishedDateTransform⟩,
   ⟨"publisher", .string, false, none⟩,
   ⟨"mature", .number, false, none⟩,
   ⟨"language", .string, false, none⟩,
   ⟨"isbn", .string, false, none⟩,
   ⟨"pageCount", .number, false, none⟩,
   ⟨"thumbnailUrl", .string, false, none⟩,
   ⟨"coverUrl", .string, false, none⟩]

/-! ## Spec-side characterizations and record operations -/

/-- Following the spec's words: the `ValidationError` one field descriptor
contributes for one raw input, if any — a `TypeMismatch{field, expectedType}`
for an own, non-null, wrongly-typed value, a `MissingRequiredField{field}`
for a required field with no own entry. -/
def fieldViolation (details : RawInput) (model : FieldModel) : Option VErr :=
  match assoc details.own model.name with
  | some v =>
      if v ≠ JSVal.null ∧ welltyped v model.type = false then
        some (.typeMismatch model.name model.type)
      else none
  | none =>
      if model.required then some (.missingRequired model.name) else none

/-- Following the spec's words: the first violation in schema declaration
order, the error a fail-fast normalizer must report. -/
def firstViolation : List FieldModel → RawInput → Option VErr
  | [], _ => none
  | m :: rest, details =>
      match fieldViolation details m with
      | some e => some e
      | none => firstViolation rest details

/-- Feed a record's field values back to the normalizer as a raw input:
a plain object whose own properties are the record's fields. -/
def recordToRaw (r : Record) : RawInput :=
  ⟨r.map (fun p => (p.name, p.value)), []⟩

/-- Model of a JavaScript property assignment `r[k] = v` on the record:
in non-strict mode, assigning to a non-writable property (the default for
`Object.defineProperty` with only `value`) fails silently; a writable
property would be updated. -/
def jsSet (r : Record) (k : String) (v : JSVal) : Record :=
  r.map (fun p => if p.name = k ∧ p.writable = true then ⟨p.name, v, p.writable⟩ else p)

/-- A field descriptor whose per-field stored-value step preserves the
declared type and is idempotent, on inputs that are null or well-typed
(the only values an own property can hold after a successful pass). -/
def FieldGood (model : FieldModel) : Prop :=
  ∀ w, (w = JSVal.null ∨ welltyped w model.type = true) →
    welltyped (stepVal model w) model.type = true ∧
    stepVal model (stepVal model w) = stepVal model w

/-! ## Concrete inputs and records used by the individual properties -/

/-- A raw input whose required `title` is supplied but empty (falsy). -/
def rawFalsyTitle : RawInput := ⟨[("title", .str "")], []⟩

/-- The record variant A produces for `rawFalsyTitle`: every field holds
its type's zero value. -/
def recAllZero : Record :=
  [⟨"title", .str "", false⟩, ⟨"subtitle", .str "", false⟩,
   ⟨"description", .str "", false⟩, ⟨"snippet", .str "", false⟩,
   ⟨"publishedDate", .str "", false⟩, ⟨"publisher", .str "", false⟩,
   ⟨"mature", .num 0, false⟩, ⟨"language", .str "", false⟩,
   ⟨"isbn", .str "", false⟩, ⟨"pageCount", .num 0, false⟩,
   ⟨"thumbnailURL", .str "", false⟩, ⟨"coverURL", .str "", false⟩]

/-- The spec's falsy-coalesce example input:
`{title: "X", coverURL: "Y", pageCount: 0}`. -/
def rawQuirk : RawInput :=
  ⟨[("title", .str "X"), ("coverURL", .str "Y"), ("pageCount", .num 0)], []⟩

/-- The record variant A produces for `rawQuirk`. -/
def recQuirk : Record :=
  [⟨"title", .str "X", false⟩, ⟨"subtitle", .str "", false⟩,
   ⟨"description", .str "", false⟩, ⟨"snippet", .str "", false⟩,
   ⟨"publishedDate", .str "", false⟩, ⟨"publisher", .str "", false⟩,
   ⟨"mature", .num 0, false⟩, ⟨"language", .str "", false⟩,
   ⟨"isbn", .str "", false⟩, ⟨"pageCount", .num 0, false⟩,
   ⟨"thumbnailURL", .str "", false⟩, ⟨"coverURL", .str "Y", false⟩]

/-- A raw input for variant D whose `description` holds entity-encoded
markup. -/
def rawEntities : RawInput :=
  ⟨[("title", .str "X"), ("description", .str "&lt;b&gt;Hi&lt;/b&gt;")], []⟩

/-- Variant D's record for `rawEntities`: one `cleanStr` pass decodes the
entities to literal markup. -/
def recEntities1 : Record :=
  [⟨"title", .str "X", false⟩, ⟨"subtitle", .str "", false⟩,
   ⟨"description", .str "<b>Hi</b>", false⟩, ⟨"snippet", .str "", false⟩,
   ⟨"publishedDate", .str "", false⟩, ⟨"publisher", .str "", false⟩,
   ⟨"mature", .num 0, false⟩, ⟨"language", .str "", false⟩,
   ⟨"isbn", .str "", false⟩, ⟨"pageCount", .num 0, false⟩,
   ⟨"thumbnailUrl", .str "", false⟩, ⟨"coverUrl", .str "", false⟩]

/-- Variant D's record for `recEntities1` fed back as raw input: the second
`cleanStr` pass now strips the decoded markup as tags. -/
def recEntities2 : Record :=
  [⟨"title", .str "X", false⟩, ⟨"subtitle", .str "", false⟩,
   ⟨"description", .str "Hi", false⟩, ⟨"snippet", .str "", false⟩,
   ⟨"publishedDate", .str "", false⟩, ⟨"publisher", .str "", false⟩,
   ⟨"mature", .num 0, false⟩, ⟨"language", .str "", false⟩,
   ⟨"isbn", .str "", false⟩, ⟨"pageCount", .num 0, false⟩,
   ⟨"thumbnailUrl", .str "", false⟩, ⟨"coverUrl", .str "", false⟩]

/-- The spec's unparseable-date example input. -/
def rawBadDate : RawInput :=
  ⟨[("title", .str "t"), ("publishedDate", .str "not-a-date")], []⟩

/-- Variant A's record for `rawBadDate`: the unparseable date string is
stored unchanged. -/
def recBadDate : Record :=
  [⟨"title", .str "t", false⟩, ⟨"subtitle", .str "", false⟩,
   ⟨"description", .str "", false⟩, ⟨"snippet", .str "", false⟩,
   ⟨"publishedDate", .str "not-a-date", false⟩, ⟨"publisher", .str "", false⟩,
   ⟨"mature", .num 0, false⟩, ⟨"language", .str "", false⟩,
   ⟨"isbn", .str "", false⟩, ⟨"pageCount", .num 0, false⟩,
   ⟨"thumbnailURL", .str "", false⟩, ⟨"coverURL", .str "", false⟩]

/-- The spec's markup-stripping example input, for variant D. -/
def rawMarkup : RawInput :=
  ⟨[("title", .str "X"), ("description", .str "<b>Hi</b>")], []⟩

/-- Variant D's record for `rawMarkup`: the markup collapses to its text
content. -/
def recMarkup : Record :=
  [⟨"title", .str "X", false⟩, ⟨"subtitle", .str "", false⟩,
   ⟨"description", .str "Hi", false⟩, ⟨"snippet", .str "", false⟩,
   ⟨"publishedDate", .str "", false⟩, ⟨"publisher", .str "", false⟩,
   ⟨"mature", .num 0, false⟩, ⟨"language", .str "", false⟩,
   ⟨"isbn", .str "", false⟩, ⟨"pageCount", .num 0, false⟩,
   ⟨"thumbnailUrl", .str "", false⟩, ⟨"coverUrl", .str "", false⟩]

/-- A raw input supplying the required `title` only through its prototype
chain. -/
def rawInheritedTitle : RawInput := ⟨[], [("title", .str "T")]⟩

/-- A raw input with a proper `title` plus an ill-typed `subtitle` supplied
only through the prototype chain. -/
def rawInherited : RawInput :=
  ⟨[("title", .str "T")], [("subtitle", .num 5)]⟩

/-- Variant A's record for `rawInherited`: the inherited, never
type-checked number is read through the prototype chain and stored in the
string-typed `subtitle` field. -/
def recInherited : Record :=
  [⟨"title", .str "T", false⟩, ⟨"subtitle", .num 5, false⟩,
   ⟨"description", .str "", false⟩, ⟨"snippet", .str "", false⟩,
   ⟨"publishedDate", .str "", false⟩, ⟨"publisher", .str "", false⟩,
   ⟨"mature", .num 0, false⟩, ⟨"language", .str "", false⟩,
   ⟨"isbn", .str "", false⟩, ⟨"pageCount", .num 0, false⟩,
   ⟨"thumbnailURL", .str "", false⟩, ⟨"coverURL", .str "", false⟩]

/-- A raw input whose required `title` holds a number. -/
def rawNumTitle : RawInput := ⟨[("title", .num 7)], []⟩

/-! ## Basic lemmas about the per-field step -/

/-- The per-field loop body throws exactly the violation the spec-side
`fieldViolation` describes. -/
theorem processField_error_iff (d : RawInput) (m : FieldModel) (e : VErr) :
    processField d m = .error e ↔ fieldViolation d m = some e := by
  unfold processField fieldViolation
  cases h : assoc d.own m.name <;> simp only [h] <;> split <;> simp_all

/-- A successful per-field step stores exactly the computed value. -/
theorem processField_ok_val {d : RawInput} {m : FieldModel} {v : JSVal}
    (h : processField d m = .ok v) : v = storedValue d m := by
  unfold processField at h
  cases h2 : assoc d.own m.name <;> simp only [h2] at h <;> split at h <;> simp_all

/-- A field with no violation processes successfully. -/
theorem processField_of_none {d : RawInput} {m : FieldModel}
    (h : fieldViolation d m = none) :
    processField d m = .ok (storedValue d m) := by
  cases hp : processField d m with
  | error e =>
    exact absurd ((processField_error_iff d m e).mp hp) (by simp [h])
  | ok v =>
    rw [processField_ok_val hp]

/-- The normalizer fails with an error exactly when that error is the first
violation in schema declaration order: fail-fast. -/
theorem normalize_error_iff (schema : List FieldModel) (d : RawInput) (e : VErr) :
    normalize schema d = .error e ↔ firstViolation schema d = some e := by
  induction schema with
  | nil => simp [normalize, firstViolation]
  | cons m rest ih =>
    unfold normalize firstViolation
    cases hp : processField d m with
    | error e2 =>
      have h2 : fieldViolation d m = some e2 := (processField_error_iff d m e2).mp hp
      simp [h2]
    | ok v =>
      have hv : fieldViolation d m = none := by
        cases hfv : fieldViolation d m with
        | none => rfl
        | some e2 =>
          exact absurd ((processField_error_iff d m e2).mpr hfv) (by simp [hp])
      cases hn : normalize rest d <;> simp_all

/-- On success the record is exactly the schema mapped through the stored
value computation, each property non-writable. -/
theorem normalize_ok_map :
    ∀ {schema : List FieldModel} {d : RawInput} {r : Record},
      normalize schema d = .ok r →
      r = schema.map (fun m => ⟨m.name, storedValue d m, false⟩) := by
  intro schema
  induction schema with
  | nil =>
    intro d r h
    simp [normalize] at h
    simp [h.symm]
  | cons m rest ih =>
    intro d r h
    unfold normalize at h
    cases hp : processField d m <;> rw [hp] at h
    · exact absurd h (by simp)
    · cases hn : normalize rest d <;> rw [hn] at h
      · exact absurd h (by simp)
      · simp only [Except.ok.injEq] at h
        subst h
        simp [processField_ok_val hp, ih hn]

/-- A raw input with no violation anywhere normalizes successfully to the
mapped record. -/
theorem normalize_of_noViolations :
    ∀ {schema : List FieldModel} {d : RawInput},
      (∀ m ∈ schema, fieldViolation d m = none) →
      normalize schema d = .ok (schema.map (fun m => ⟨m.name, storedValue d m, false⟩)) := by
  intro schema
  induction schema with
  | nil => intro d _; simp [normalize]
  | cons m rest ih =>
    intro d h
    have hpf := processField_of_none (h m (by simp))
    have hrec := ih (fun m' hm' => h m' (by simp [hm']))
    unfold normalize
    rw [hpf, hrec]
    simp

/-- If every field before `m` is violation-free and `m` itself violates,
the normalizer reports `m`'s violation — later fields are never reached. -/
theorem normalize_append_error :
    ∀ (pre : List FieldModel) (m : FieldModel) (post : List FieldModel)
      (d : RawInput) (e : VErr),
      (∀ m' ∈ pre, fieldViolation d m' = none) →
      fieldViolation d m = some e →
      normalize (pre ++ m :: post) d = .error e := by
  intro pre
  induction pre with
  | nil =>
    intro m post d e _ hm
    have hpe : processField d m = .error e := (processField_error_iff d m e).mpr hm
    simp only [List.nil_append]
    unfold normalize
    rw [hpe]
  | cons p pre ih =>
    intro m post d e hpre hm
    have hp0 := processField_of_none (hpre p (by simp))
    have hrec := ih m post d e (fun m' hm' => hpre m' (by simp [hm'])) hm
    show normalize (p :: (pre ++ m :: post)) d = .error e
    unfold normalize
    rw [hp0, hrec]

/-- The normalizer only reads a raw input through the own-property lookup
and the prototype-chain read of each schema field name. -/
theorem normalize_congr :
    ∀ (schema : List FieldModel) (d1 d2 : RawInput),
      (∀ m ∈ schema, assoc d1.own m.name = assoc d2.own m.name ∧
          jsRead d1 m.name = jsRead d2 m.name) →
      normalize schema d1 = normalize schema d2 := by
  intro schema
  induction schema with
  | nil => intro d1 d2 _; simp [normalize]
  | cons m rest ih =>
    intro d1 d2 h
    have h1 := h m (by simp)
    have hpf : processField d1 m = processField d2 m := by
      simp only [processField, storedValue, h1.1, h1.2]
    unfold normalize
    rw [hpf, ih d1 d2 (fun m' hm' => h m' (by simp [hm']))]

/-! ## The host date round trip is a closure, and transforms are
well-behaved on the values a successful pass can store -/

/-- A calendar date with the midnight time part appended is a full ISO
timestamp. -/
theorem fullShape_append_timeSuffix {l : List Char} (hc : calShape l = true) :
    fullShape (l ++ timeSuffix) = true := by
  unfold calShape at hc
  split at hc
  · simp only [timeSuffix, List.cons_append, List.nil_append]
    unfold fullShape
    simp only [Bool.and_eq_true] at hc ⊢
    simp_all
  · simp at hc

/-- Every output of the modelled date parser is a fixed point of it. -/
theorem parseISOChars_fixpoint {l t : List Char} (h : parseISOChars l = some t) :
    parseISOChars t = some t := by
  unfold parseISOChars at h ⊢
  by_cases hf : fullShape l = true
  · rw [if_pos hf] at h
    simp only [Option.some.injEq] at h
    subst h
    simp [hf]
  · rw [if_neg hf] at h
    by_cases hc : calShape l = true
    · rw [if_pos hc] at h
      simp only [Option.some.injEq] at h
      subst h
      simp [fullShape_append_timeSuffix hc]
    · rw [if_neg hc] at h
      exact absurd h (by simp)

/-- The date transform body is idempotent on strings. -/
theorem toISOorKeep_idem (s : String) : toISOorKeep (toISOorKeep s) = toISOorKeep s := by
  unfold toISOorKeep dateToISO
  cases h : parseISOChars s.data with
  | none => simp [h]
  | some t =>
    have hfix := parseISOChars_fixpoint h
    have hdata : (String.mk t).data = t := rfl
    simp [h, hdata, hfix]

/-- A type's zero value is falsy. -/
theorem truthy_zeroVal (t : JType) : truthy (zeroVal t) = false := by
  cases t <;> decide

/-- A type's zero value is well-typed for it. -/
theorem welltyped_zeroVal (t : JType) : welltyped (zeroVal t) t = true := by
  cases t <;> rfl

/-- Well-typed values are not null. -/
theorem welltyped_not_null {v : JSVal} {t : JType} (h : welltyped v t = true) :
    v ≠ JSVal.null := by
  cases v <;> cases t <;> simp_all [welltyped]

/-- The empty string does not parse as a date and is kept. -/
theorem toISOorKeep_empty : toISOorKeep "" = "" := by decide

/-- A field with no transform (the source's `identity`) has a
type-preserving, idempotent stored-value step. -/
theorem fieldGood_of_none {m : FieldModel} (h : m.transform = none) : FieldGood m := by
  intro w hw
  simp only [stepVal, h, applyTransform]
  by_cases ht : truthy w = true
  · rcases hw with rfl | hw
    · exact absurd ht (by simp [truthy])
    · simp only [if_pos ht]
      exact ⟨hw, by simp [if_pos ht]⟩
  · simp only [if_neg ht]
    exact ⟨welltyped_zeroVal _, by simp [truthy_zeroVal]⟩

/-- A string field carrying the `publishedDate` transform has a
type-preserving, idempotent stored-value step. -/
theorem fieldGood_publishedDate {m : FieldModel} (hty : m.type = JType.string)
    (htr : m.transform = some publishedDateTransform) : FieldGood m := by
  intro w hw
  have hw' : ∃ s, (if truthy w = true then w else zeroVal m.type) = JSVal.str s := by
    rcases hw with rfl | hw
    · exact ⟨"", by simp [truthy, hty, zeroVal]⟩
    · cases w with
      | str s =>
        by_cases ht : truthy (JSVal.str s) = true
        · exact ⟨s, by simp [if_pos ht]⟩
        · exact ⟨"", by simp [if_neg ht, hty, zeroVal]⟩
      | num n =>
        rw [hty] at hw
        simp [welltyped] at hw
      | null => exact ⟨"", by simp [truthy, hty, zeroVal]⟩
  obtain ⟨s, hs⟩ := hw'
  simp only [stepVal, htr, applyTransform, hs, publishedDateTransform]
  constructor
  · simp [hty, welltyped]
  · by_cases h2 : toISOorKeep s = ""
    · simp [h2, truthy, hty, zeroVal, publishedDateTransform, toISOorKeep_empty]
    · have ht2 : truthy (JSVal.str (toISOorKeep s)) = true := by
        simp [truthy, h2]
      simp [if_pos ht2, publishedDateTransform, toISOorKeep_idem]

/-- A per-field success means any own value of that field was null or
well-typed. -/
theorem processField_ok_welltyped {d : RawInput} {m : FieldModel} {v : JSVal}
    (h : processField d m = .ok v) :
    ∀ w, assoc d.own m.name = some w → (w = JSVal.null ∨ welltyped w m.type = true) := by
  intro w hw
  unfold processField at h
  simp only [hw] at h
  by_cases hc : w ≠ JSVal.null ∧ welltyped w m.type = false
  · rw [if_pos hc] at h
    exact absurd h (by simp)
  · rcases not_and_or.mp hc with h1 | h2
    · exact Or.inl (not_not.mp h1)
    · right
      cases hb : welltyped w m.type
      · exact absurd hb h2
      · rfl

/-- For a schema with distinct field names, all of whose stored-value steps
are type-preserving and idempotent, normalizing a successful record's own
values again reproduces the record exactly. -/
theorem normalize_idem_aux :
    ∀ (schema : List FieldModel),
      (schema.map FieldModel.name).Nodup →
      (∀ m ∈ schema, FieldGood m) →
      ∀ (details : RawInput), details.inherited = [] →
      ∀ r, normalize schema details = .ok r →
      normalize schema (recordToRaw r) = .ok r := by
  intro schema
  induction schema with
  | nil =>
    intro _ _ details _ r h
    simp [normalize] at h ⊢
    exact h
  | cons m rest ih =>
    intro hnd hgood details hinh r h
    unfold normalize at h
    cases hp : processField details m <;> rw [hp] at h
    · exact absurd h (by simp)
    case ok v =>
    cases hn : normalize rest details <;> rw [hn] at h
    · exact absurd h (by simp)
    case ok r' =>
    simp only [Except.ok.injEq] at h
    subst h
    have hv : v = storedValue details m := processField_ok_val hp
    have hwp : jsRead details m.name = JSVal.null ∨
        welltyped (jsRead details m.name) m.type = true := by
      cases ho : assoc details.own m.name with
      | none =>
        left
        simp [jsRead, rawGet, ho, hinh, assoc]
      | some w =>
        have hj : jsRead details m.name = w := by
          simp [jsRead, rawGet, ho]
        rw [hj]
        exact processField_ok_welltyped hp w ho
    have hFG := hgood m (by simp) (jsRead details m.name) hwp
    have hsv : storedValue details m = stepVal m (jsRead details m.name) := rfl
    have hvw : welltyped v m.type = true := by
      rw [hv, hsv]
      exact hFG.1
    have hassoc : assoc (recordToRaw (⟨m.name, v, false⟩ :: r')).own m.name = some v := by
      simp [recordToRaw, assoc]
    have hreadv : jsRead (recordToRaw (⟨m.name, v, false⟩ :: r')) m.name = v := by
      simp [jsRead, rawGet, hassoc]
    have hstep : stepVal m v = v := by
      rw [hv, hsv]
      exact hFG.2
    have hpf2 : processField (recordToRaw (⟨m.name, v, false⟩ :: r')) m = .ok v := by
      unfold processField
      simp only [hassoc]
      rw [if_neg (by simp [hvw])]
      unfold storedValue
      rw [hreadv, hstep]
    have hnd' : (rest.map FieldModel.name).Nodup := by
      simp only [List.map_cons, List.nodup_cons] at hnd
      exact hnd.2
    have hnotin : m.name ∉ rest.map FieldModel.name := by
      simp only [List.map_cons, List.nodup_cons] at hnd
      exact hnd.1
    have hih := ih hnd' (fun m' hm' => hgood m' (by simp [hm'])) details hinh r' hn
    have hcongr : normalize rest (recordToRaw (⟨m.name, v, false⟩ :: r')) =
        normalize rest (recordToRaw r') := by
      apply normalize_congr
      intro m' hm'
      have hne : m.name ≠ m'.name := by
        intro he
        exact hnotin (he ▸ List.mem_map_of_mem FieldModel.name hm')
      constructor
      · simp [recordToRaw, assoc, hne]
      · simp [jsRead, rawGet, recordToRaw, assoc, hne]
    unfold normalize
    rw [hpf2, hcongr, hih]

/-- A first violation of the missing-required kind pins down a required
schema field with no own entry in the raw input. -/
theorem firstViolation_missingRequired :
    ∀ {schema : List FieldModel} {d : RawInput} {n : String},
      firstViolation schema d = some (.missingRequired n) →
      ∃ m ∈ schema, m.name = n ∧ m.required = true ∧ assoc d.own n = none := by
  intro schema
  induction schema with
  | nil => intro d n h; simp [firstViolation] at h
  | cons m rest ih =>
    intro d n h
    unfold firstViolation at h
    cases hf : fieldViolation d m with
    | some e =>
      rw [hf] at h
      simp only [Option.some.injEq] at h
      subst h
      unfold fieldViolation at hf
      cases ho : assoc d.own m.name with
      | some w =>
        simp only [ho] at hf
        split at hf
        · exact absurd hf (by simp)
        · exact absurd hf (by simp)
      | none =>
        simp only [ho] at hf
        split at hf
        case isTrue hreq =>
          simp only [Option.some.injEq, VErr.missingRequired.injEq] at hf
          exact ⟨m, by simp, hf, hreq, hf ▸ ho⟩
        case isFalse => exact absurd hf (by simp)
    | none =>
      rw [hf] at h
      obtain ⟨m', hm', h1, h2, h3⟩ := ih h
      exact ⟨m', by simp [hm'], h1, h2, h3⟩

/-- Property assignment on a record all of whose properties are
non-writable changes nothing. -/
theorem jsSet_id {r : Record} (h : ∀ p ∈ r, p.writable = false)
    (k : String) (v : JSVal) : jsSet r k v = r := by
  unfold jsSet
  have h2 : ∀ p ∈ r,
      (if p.name = k ∧ p.writable = true then PropD.mk p.name v p.writable else p) = p :=
    fun p hp => if_neg (by simp [h p hp])
  rw [List.map_congr_left h2]
  simp

/-! ## The claimed properties -/

/-- Claim C1: whenever a raw input supplies, for a schema field, an own
non-null value whose runtime type does not match the descriptor's expected
type, and no earlier field (in schema declaration order) violates, the
normalizer fails with a `TypeMismatch` naming that field and its expected
type — later fields are never examined; and a supplied null value is never
type-checked (an own null processes successfully), nor is an absent key
(the per-field step can only raise `TypeMismatch` from an own value). -/
theorem typeMismatch_fail_fast :
    (∀ (details : RawInput) (pre : List FieldModel) (m : FieldModel)
        (post : List FieldModel),
        schemaA = pre ++ m :: post →
        (∀ m' ∈ pre, fieldViolation details m' = none) →
        ∀ v, assoc details.own m.name = some v → v ≠ JSVal.null →
          welltyped v m.type = false →
          normalize schemaA details = .error (.typeMismatch m.name m.type)) ∧
    (∀ (details : RawInput) (m : FieldModel), m ∈ schemaA →
        assoc details.own m.name = some JSVal.null →
        processField details m = .ok (storedValue details m)) := by
  constructor
  · intro details pre m post hsch hpre v hv hnn hwt
    have hfv : fieldViolation details m = some (.typeMismatch m.name m.type) := by
      unfold fieldViolation
      simp only [hv]
      rw [if_pos ⟨hnn, hwt⟩]
    rw [hsch]
    exact normalize_append_error pre m post details _ hpre hfv
  · intro details m _ hv
    unfold processField
    simp only [hv]
    rw [if_neg (by simp)]

/-- Witness for claim C1: a numeric `title` makes variant A fail with the
`TypeMismatch` naming `title` and `String`. -/
theorem typeMismatch_fail_fast_witness :
    normalize schemaA rawNumTitle = .error (.typeMismatch "title" JType.string) :=
  typeMismatch_fail_fast.1 rawNumTitle [] ⟨"title", JType.string, true, none⟩
    schemaA.tail rfl (by simp) (.num 7) rfl (by simp) rfl

/-- Counterexample to claim C2: a raw input whose required `title` key is
present but holds the empty (falsy) string does NOT fail with
`MissingRequiredField` — normalization succeeds, storing zero values. -/
theorem missingRequired_falsy_succeeds :
    normalize schemaA rawFalsyTitle = .ok recAllZero := rfl

/-- Claim C2 as amended: the required-field error fires exactly when the
required field's key is absent as an own property of the raw input; a
present key — whatever value it holds, including empty or null — passes the
presence check, so absence means key-missing only. -/
theorem missingRequired_own_absent :
    (∀ details : RawInput, assoc details.own "title" = none →
        normalize schemaA details = .error (.missingRequired "title")) ∧
    (∀ (details : RawInput) (n : String),
        normalize schemaA details = .error (.missingRequired n) →
        n = "title" ∧ assoc details.own n = none) := by
  constructor
  · intro details h
    have hfv : fieldViolation details (⟨"title", JType.string, true, none⟩ : FieldModel) =
        some (.missingRequired "title") := by
      unfold fieldViolation
      simp only [h]
      rfl
    exact normalize_append_error [] _ schemaA.tail details _ (by simp) hfv
  · intro details n h
    have h1 := (normalize_error_iff schemaA details _).mp h
    obtain ⟨m, hm, hname, hreq, hnone⟩ := firstViolation_missingRequired h1
    simp only [schemaA, List.mem_cons, List.not_mem_nil, or_false] at hm
    rcases hm with rfl|rfl|rfl|rfl|rfl|rfl|rfl|rfl|rfl|rfl|rfl|rfl <;> simp_all

/-- Witness for the amended claim C2: the empty raw input fails with the
required-field error for `title`. -/
theorem missingRequired_own_absent_witness :
    assoc (RawInput.mk [] []).own "title" = none ∧
    normalize schemaA ⟨[], []⟩ = .error (.missingRequired "title") :=
  ⟨rfl, missingRequired_own_absent.1 ⟨[], []⟩ rfl⟩

/-- Claim C3: for every schema, a raw input whose own entries for
recognized fields are all well-typed and which has an own entry for every
required field normalizes successfully, and the record's key list is
exactly the schema's field-name list — so every schema field appears, no
key outside the schema leaks in, and unrecognized extra keys (unconstrained
here) never affect success. -/
theorem normalize_success_exact_fields
    (schema : List FieldModel) (details : RawInput)
    (hreq : ∀ m ∈ schema, m.required = true → (assoc details.own m.name).isSome = true)
    (htyped : ∀ m ∈ schema,
        (assoc details.own m.name).all (fun v => welltyped v m.type) = true) :
    ∃ r, normalize schema details = .ok r ∧
      r.map PropD.name = schema.map FieldModel.name := by
  have hnv : ∀ m ∈ schema, fieldViolation details m = none := by
    intro m hm
    unfold fieldViolation
    cases ho : assoc details.own m.name with
    | some v =>
      have hw : welltyped v m.type = true := by
        have := htyped m hm
        rw [ho] at this
        simpa [Option.all] using this
      simp only [ho]
      rw [if_neg (by simp [hw])]
    | none =>
      have hnr : ¬ m.required = true := fun hr => by
        have := hreq m hm hr
        rw [ho] at this
        simp at this
      simp only [ho]
      rw [if_neg hnr]
  refine ⟨_, normalize_of_noViolations hnv, ?_⟩
  rw [List.map_map]
  rfl

/-- Witness for claim C3: the falsy-coalesce example input (which also
carries no unrecognized keys) satisfies both hypotheses for variant A, so
it normalizes to a record with exactly the schema's field names. -/
theorem normalize_success_exact_fields_witness :
    (∀ m ∈ schemaA, m.required = true → (assoc rawQuirk.own m.name).isSome = true) ∧
    ∃ r, normalize schemaA rawQuirk = .ok r ∧
      r.map PropD.name = schemaA.map FieldModel.name :=
  ⟨by decide, normalize_success_exact_fields schemaA rawQuirk (by decide) (by decide)⟩

/-- Claim C4: on success every stored value is the descriptor's transform
(identity if none) applied to the property read when that read is truthy
and to the expected type's zero value otherwise (`stepVal` is literally
`(model.transform || identity)(details[name] || new model.type())`); in
particular `{title: "X", coverURL: "Y", pageCount: 0}` stores the zero
value for `pageCount`. -/
theorem stored_value_spec :
    (∀ (details : RawInput) (r : Record), normalize schemaA details = .ok r →
        r = schemaA.map (fun m =>
          ⟨m.name, stepVal m (jsRead details m.name), false⟩)) ∧
    (normalize schemaA rawQuirk = .ok recQuirk ∧
      PropD.mk "pageCount" (.num 0) false ∈ recQuirk) := by
  refine ⟨?_, rfl, by decide⟩
  intro details r h
  exact normalize_ok_map h

/-- Witness for claim C4: the falsy-coalesce example record equals the
per-field stored-value formula applied to its raw input. -/
theorem stored_value_spec_witness :
    normalize schemaA rawQuirk = .ok recQuirk ∧
    recQuirk = schemaA.map (fun m => ⟨m.name, stepVal m (jsRead rawQuirk m.name), false⟩) :=
  ⟨rfl, stored_value_spec.1 rawQuirk recQuirk rfl⟩

/-- Claim C5: the normalizer fails exactly with the first violation in
schema order, and a failing normalization yields no record of any kind —
the caller receives only the error. -/
theorem failure_no_record :
    (∀ (details : RawInput) (e : VErr),
        normalize schemaA details = .error e ↔
        firstViolation schemaA details = some e) ∧
    (∀ (details : RawInput) (e : VErr) (r : Record),
        normalize schemaA details = .error e →
        ¬ normalize schemaA details = .ok r) := by
  refine ⟨fun details e => normalize_error_iff schemaA details e, ?_⟩
  intro details e r he hok
  rw [he] at hok
  exact absurd hok (by simp)

/-- Witness for claim C5: on the numeric-`title` input the first violation
is the `title` type mismatch and the normalizer reports exactly it. -/
theorem failure_no_record_witness :
    firstViolation schemaA rawNumTitle = some (.typeMismatch "title" JType.string) ∧
    normalize schemaA rawNumTitle = .error (.typeMismatch "title" JType.string) :=
  ⟨by decide, (failure_no_record.1 rawNumTitle _).mpr (by decide)⟩

/-- Counterexample to claim C6 (idempotence): in variant D, feeding the
record for an entity-encoded `description` back through the normalizer
decodes/strips once more and yields a different record; and even in
variant A, a well-formed record whose ill-typed `subtitle` came through the
prototype chain fails outright when fed back.  Normalization is therefore
not idempotent as claimed. -/
theorem idempotence_cex :
    (normalize schemaD rawEntities = .ok recEntities1 ∧
      normalize schemaD (recordToRaw recEntities1) = .ok recEntities2 ∧
      recEntities1 ≠ recEntities2) ∧
    (normalize schemaA rawInherited = .ok recInherited ∧
      normalize schemaA (recordToRaw recInherited) =
        .error (.typeMismatch "subtitle" JType.string)) :=
  ⟨⟨rfl, rfl, by decide⟩, ⟨rfl, rfl⟩⟩

/-- Claim C6 as amended: for the schema variant without the
markup-stripping transform (identity and date transforms only), normalizing
the record produced from a prototype-free raw input again yields the
identical record, field for field. -/
theorem idempotence_no_markup_variant (details : RawInput)
    (hproto : details.inherited = []) (r : Record)
    (h : normalize schemaA details = .ok r) :
    normalize schemaA (recordToRaw r) = .ok r := by
  refine normalize_idem_aux schemaA (by decide) ?_ details hproto r h
  intro m hm
  simp only [schemaA, List.mem_cons, List.not_mem_nil, or_false] at hm
  rcases hm with rfl|rfl|rfl|rfl|rfl|rfl|rfl|rfl|rfl|rfl|rfl|rfl <;>
    first
      | exact fieldGood_of_none rfl
      | exact fieldGood_publishedDate rfl rfl

/-- Witness for the amended claim C6: re-normalizing the record of the
falsy-`title` input reproduces it exactly. -/
theorem idempotence_no_markup_variant_witness :
    rawFalsyTitle.inherited = [] ∧
    normalize schemaA rawFalsyTitle = .ok recAllZero ∧
    normalize schemaA (recordToRaw recAllZero) = .ok recAllZero :=
  ⟨rfl, rfl, idempotence_no_markup_variant rawFalsyTitle rfl recAllZero rfl⟩

/-- Claim C7: the `publishedDate` transform maps any string the host date
parser accepts to its canonical ISO-8601 timestamp and keeps any
unparseable string unchanged (the failure is logged, never surfaced: a raw
input with an unparseable date still normalizes successfully). -/
theorem publishedDate_transform_spec :
    (∀ s t, dateToISO s = some t → publishedDateTransform (.str s) = .str t) ∧
    (∀ s, dateToISO s = none → publishedDateTransform (.str s) = .str s) ∧
    publishedDateTransform (.str "2020-01-01") = .str "2020-01-01T00:00:00.000Z" ∧
    publishedDateTransform (.str "not-a-date") = .str "not-a-date" ∧
    normalize schemaA rawBadDate = .ok recBadDate := by
  refine ⟨?_, ?_, by decide, by decide, rfl⟩
  · intro s t h
    simp [publishedDateTransform, toISOorKeep, h]
  · intro s h
    simp [publishedDateTransform, toISOorKeep, h]

/-- Witness for claim C7: both transform clauses applied at concrete
strings. -/
theorem publishedDate_transform_spec_witness :
    dateToISO "2020-01-01" = some "2020-01-01T00:00:00.000Z" ∧
    publishedDateTransform (.str "2020-01-01") = .str "2020-01-01T00:00:00.000Z" ∧
    dateToISO "nope" = none ∧
    publishedDateTransform (.str "nope") = .str "nope" :=
  ⟨by decide, publishedDate_transform_spec.1 _ _ (by decide), by decide,
    publishedDate_transform_spec.2.1 _ (by decide)⟩

/-- Claim C8: the markup-stripping normalizer collapses embedded markup to
its text content — `cleanStr "<b>Hi</b>" = "Hi"` — and in variant D the
input `{description: "<b>Hi</b>"}` stores the value `"Hi"`. -/
theorem cleanStr_strips_markup :
    cleanStr "<b>Hi</b>" = "Hi" ∧
    normalize schemaD rawMarkup = .ok recMarkup ∧
    PropD.mk "description" (.str "Hi") false ∈ recMarkup :=
  ⟨by decide, rfl, by decide⟩

/-- Claim C9: every successfully constructed record consists solely of
non-writable properties (the `Object.defineProperty` default), so any
later property assignment — from rendering or anything else — leaves every
field exactly as computed at construction. -/
theorem record_immutable (details : RawInput) (r : Record)
    (h : normalize schemaA details = .ok r) :
    (∀ p ∈ r, p.writable = false) ∧ ∀ (k : String) (v : JSVal), jsSet r k v = r := by
  have hw : ∀ p ∈ r, p.writable = false := by
    have hr := normalize_ok_map h
    subst hr
    intro p hp
    simp only [List.mem_map] at hp
    obtain ⟨m, _, rfl⟩ := hp
    rfl
  exact ⟨hw, fun k v => jsSet_id hw k v⟩

/-- Witness for claim C9: the unparseable-date record resists an attempted
reassignment of `title`. -/
theorem record_immutable_witness :
    normalize schemaA rawBadDate = .ok recBadDate ∧
    (∀ p ∈ recBadDate, p.writable = false) ∧
    jsSet recBadDate "title" (.str "zzz") = recBadDate :=
  ⟨rfl, (record_immutable rawBadDate recBadDate rfl).1,
    (record_immutable rawBadDate recBadDate rfl).2 "title" (.str "zzz")⟩

/-- Claim C10: a field supplied only through the prototype chain counts as
absent for the presence check — a required field supplied by inheritance
alone still raises the required-field error, and a field with no own entry
can never raise a type mismatch — yet when construction proceeds, a truthy
inherited value is read through the chain and stored (transformed) instead
of the type's zero value, as the end-to-end `rawInherited` run shows with
an ill-typed inherited `subtitle`. -/
theorem inherited_props_spec :
    (normalize schemaA rawInheritedTitle = .error (.missingRequired "title")) ∧
    (∀ (details : RawInput) (m : FieldModel),
        assoc details.own m.name = none →
        ∀ n t, ¬ processField details m = .error (.typeMismatch n t)) ∧
    (∀ (details : RawInput) (m : FieldModel),
        assoc details.own m.name = none → m.required = false →
        ∀ v, assoc details.inherited m.name = some v → truthy v = true →
        processField details m = .ok (applyTransform m.transform v)) ∧
    (normalize schemaA rawInherited = .ok recInherited ∧
      PropD.mk "subtitle" (.num 5) false ∈ recInherited) := by
  refine ⟨rfl, ?_, ?_, rfl, by decide⟩
  · intro details m ho n t hc
    unfold processField at hc
    simp only [ho] at hc
    split at hc
    · simp at hc
    · simp at hc
  · intro details m ho hreq v hi ht
    have hj : jsRead details m.name = v := by
      simp [jsRead, rawGet, ho, hi]
    unfold processField
    simp only [ho]
    rw [if_neg (by simp [hreq])]
    unfold storedValue stepVal
    rw [hj, if_pos ht]

/-- Witness for claim C10: the truthy inherited `subtitle` number is stored
untouched by the per-field step. -/
theorem inherited_props_spec_witness :
    assoc rawInherited.own "subtitle" = none ∧
    processField rawInherited ⟨"subtitle", JType.string, false, none⟩ = .ok (.num 5) :=
  ⟨rfl, inherited_props_spec.2.2.1 rawInherited
    ⟨"subtitle", JType.string, false, none⟩ rfl rfl (.num 5) rfl rfl⟩

end BMR
